import Mathlib

/-!
Shallow embedding of `export_things_to_taskpaper.py` (a Things 3 → TaskPaper
exporter) and verification of its natural-language specification.

Records from the external database are Python dictionaries; we embed the
fixed set of keys the program reads as a structure of `Option` fields
(`none` = key absent).  Output streams are modelled by the string a call
writes; Python's in-place mutation of the `tags` list inside a record is
modelled by returning the updated record alongside the string.
-/

namespace ThingsExport

/-- One entry of a todo's `checklist` collection: the program only reads its
`title`. -/
structure ChecklistItem where
  title : String
  deriving DecidableEq

/-- The non-recursive fields of a record (Python dict) that the program reads.
`none` models an absent key.  Fields keep the dictionary key names. -/
structure RecCore where
  uuid : String := ""
  type : Option String := none
  title : String := ""
  index : Int := 0
  notes : Option String := none
  tags : Option (List String) := none
  start : Option String := none
  start_date : Option String := none
  deadline : Option String := none
  area : Option String := none
  area_title : Option String := none
  checklist : Option (List ChecklistItem) := none
  deriving DecidableEq

/-- A record: its scalar fields plus the `items` key (child records, as
returned by the accessor with `include_items=True`; absent key = `[]`). -/
inductive Rec where
  | node (core : RecCore) (items : List Rec)

def Rec.core : Rec → RecCore
  | .node c _ => c

def Rec.items : Rec → List Rec
  | .node _ is => is

def Rec.uuid (r : Rec) : String := r.core.uuid

def Rec.type (r : Rec) : Option String := r.core.type

def Rec.title (r : Rec) : String := r.core.title

def Rec.index (r : Rec) : Int := r.core.index

def Rec.notes (r : Rec) : Option String := r.core.notes

def Rec.tags (r : Rec) : Option (List String) := r.core.tags

def Rec.start (r : Rec) : Option String := r.core.start

def Rec.start_date (r : Rec) : Option String := r.core.start_date

def Rec.deadline (r : Rec) : Option String := r.core.deadline

def Rec.area (r : Rec) : Option String := r.core.area

def Rec.area_title (r : Rec) : Option String := r.core.area_title

def Rec.checklist (r : Rec) : Option (List ChecklistItem) := r.core.checklist

/-- Replace the `tags` entry of a record (models in-place mutation of the
dictionary's `tags` value). -/
def Rec.withTags (r : Rec) (t : Option (List String)) : Rec :=
  .node { r.core with tags := t } r.items

/-- Python truthiness of `item.get(key)` for a string-valued key: the walrus
tests `if when := item.get(...)` succeed iff the key is present with a
non-empty string. -/
def truthy : Option String → Option String
  | some s => if s = "" then none else some s
  | none => none

/-- Python `str.join` (`sep.join(parts)`). -/
def strJoin (sep : String) : List String → String
  | [] => ""
  | [x] => x
  | x :: xs => x ++ sep ++ strJoin sep xs

/-- Python `s.replace(" ", "-")`: the pattern is a single character, so this
is a character map. -/
def replaceSpaces (s : String) : String :=
  ⟨s.data.map (fun c => if c = ' ' then '-' else c)⟩

/-- Split a character list at every newline.  Always returns a non-empty
list; a trailing newline yields a trailing empty piece. -/
def splitNL : List Char → List (List Char)
  | [] => [[]]
  | c :: cs =>
    if c = '\n' then [] :: splitNL cs
    else
      match splitNL cs with
      | l :: ls => (c :: l) :: ls
      | [] => [[c]]

/-- Python `str.splitlines` restricted to `'\n'` line boundaries (the only
boundary character this program's data contains): pieces between newlines,
with no trailing empty piece. -/
def pySplitlines (s : String) : List String :=
  let ps := splitNL s.data
  (if ps.getLast? = some [] then ps.dropLast else ps).map (fun l => ⟨l⟩)

/-- Bool-valued code-point lexicographic comparison of character lists,
matching how Python compares strings in `sorted`. -/
def charListLe : List Char → List Char → Bool
  | [], _ => true
  | _ :: _, [] => false
  | a :: as, b :: bs => if a = b then charListLe as bs else decide (a < b)

/-- Code-point lexicographic `≤` on strings, as a proposition. -/
def StrLeR (a b : String) : Prop := charListLe a.data b.data = true

instance : DecidableRel StrLeR := fun a b => by
  unfold StrLeR; infer_instance

/-- Sibling order on records: ascending by the `index` key (the comparison
`sorted(..., key=itemgetter("index"))` uses). -/
def IdxLeR (a b : Rec) : Prop := a.index ≤ b.index

instance : DecidableRel IdxLeR := fun a b => by
  unfold IdxLeR; infer_instance

/-- Python's stable `sorted(items, key=itemgetter("index"))`. -/
def sortByIndex (l : List Rec) : List Rec := List.insertionSort IdxLeR l

/-- Python `sorted(set(tags))`: the distinct elements of `tags` in code-point
lexicographic order. -/
def dedupSort (l : List String) : List String := List.insertionSort StrLeR l.dedup

/-- The list the local variable `tags` of `_get_omnifocus_parameters` holds
after the two conditional `+=` statements: the record's own tags, then the
`start` bucket when truthy, then the synthesized `area-<name>` tag when an
area name is supplied and truthy. -/
def tagList (item : Rec) (area_name : Option String) : List String :=
  let tags := item.tags.getD []
  let tags := match truthy item.start with
    | some start => tags ++ [start]
    | none => tags
  match truthy area_name with
  | some an => tags ++ ["area-" ++ replaceSpaces an]
  | none => tags

/-- `_get_omnifocus_parameters`: the `@defer`/`@due`/`@tags` string appended
to a project or todo line.  Because `tags = item.get("tags", [])` aliases the
record's list when the key is present, the two `+=` statements mutate the
record; the second component is the record as it stands after the call. -/
def _get_omnifocus_parameters (item : Rec) (area_name : Option String := none) :
    String × Rec :=
  let result := ""
  let result := result ++ match truthy item.start_date with
    | some when_ => " @defer(" ++ when_ ++ ")"
    | none => ""
  let result := result ++ match truthy item.deadline with
    | some when_ => " @due(" ++ when_ ++ ")"
    | none => ""
  let result := result ++ " @tags(" ++ strJoin ", " (dedupSort (tagList item area_name)) ++ ")"
  let item' := match item.tags with
    | some _ => item.withTags (some (tagList item area_name))
    | none => item
  (result, item')

/-- `_write_note_if_any`: the text written for the `notes` key, each line of
the note indented to `depth`.  A missing or empty note writes nothing. -/
def _write_note_if_any (item : Rec) (depth : String) : String :=
  match item.notes with
  | none => ""
  | some note =>
    if note = "" then ""
    else depth ++ strJoin ("\n" ++ depth) (pySplitlines note) ++ "\n"

/-- `_write_checklist_if_any`: one `- <title>` line per checklist entry,
indented to `depth`.  A missing or empty checklist writes nothing. -/
def _write_checklist_if_any (todo : Rec) (depth : String) : String :=
  match todo.checklist.getD [] with
  | [] => ""
  | checklist => strJoin "" (checklist.map (fun c => depth ++ "- " ++ c.title ++ "\n"))

/-- `write_todo` (record branch; `_resolve_item_if_needed` is the identity on
an already-resolved record): the todo line, then its note and checklist one
tab deeper.  Second component: the todo after the tag mutation performed by
`_get_omnifocus_parameters`. -/
def write_todo (todo : Rec) (depth : String := "") (area_name : Option String := none) :
    String × Rec :=
  let p := _get_omnifocus_parameters todo area_name
  (depth ++ "- " ++ todo.title ++ p.1 ++ "\n"
      ++ _write_note_if_any p.2 (depth ++ "\t")
      ++ _write_checklist_if_any p.2 (depth ++ "\t"),
    p.2)

/-- `write_todos`: each todo in turn via `write_todo`, all at the same depth.
Second component: the todos after their tag mutations. -/
def write_todos (todos : List Rec) (depth : String := "")
    (area_name : Option String := none) : String × List Rec :=
  match todos with
  | [] => ("", [])
  | t :: ts =>
    let p := write_todo t depth area_name
    let rest := write_todos ts depth area_name
    (p.1 ++ rest.1, p.2 :: rest.2)

/-- `get_all_todos_for_project_in_order` (record branch): direct child todos
in accessor order, then for each heading in ascending `index` order its child
todos in ascending `index` order. -/
def get_all_todos_for_project_in_order (project : Rec) : List Rec :=
  let project_items := project.items
  let todos_directly_under_the_project :=
    project_items.filter (fun todo => todo.type == some "to-do")
  let headings :=
    sortByIndex (project_items.filter (fun heading => heading.type == some "heading"))
  let todos_under_headings :=
    headings.foldl
      (fun acc heading =>
        acc ++ sortByIndex (heading.items.filter (fun todo => todo.type == some "to-do")))
      []
  todos_directly_under_the_project ++ todos_under_headings

/-- `write_project` (record branch): the `<title>:<params>` line — with the
record's `area_title` as the owning-area name — then the note and all
extracted todos one tab deeper.  The todos are written with `area_name`
left at its default `None`. -/
def write_project (project : Rec) (depth : String := "") : String :=
  let area_name := project.area_title
  let p := _get_omnifocus_parameters project area_name
  depth ++ project.title ++ ":" ++ p.1 ++ "\n"
    ++ _write_note_if_any p.2 (depth ++ "\t")
    ++ (write_todos (get_all_todos_for_project_in_order p.2) (depth ++ "\t")).1

/-- `write_projects`: each project in turn via `write_project`. -/
def write_projects (projects : List Rec) (depth : String := "") : String :=
  match projects with
  | [] => ""
  | p :: ps => write_project p depth ++ write_projects ps depth

/-- `get_all_projects_for_area` (record branch): the area's child items of
type `project` whose `area` key equals the area's uuid, ascending by
`index`. -/
def get_all_projects_for_area (area : Rec) : List Rec :=
  sortByIndex (area.items.filter
    (fun project => project.type == some "project" && project.area == some area.uuid))

/-- `get_all_todos_for_area` (record branch): the area's child items of type
`to-do` whose `area` key equals the area's uuid, ascending by `index`. -/
def get_all_todos_for_area (area : Rec) : List Rec :=
  sortByIndex (area.items.filter
    (fun todo => todo.type == some "to-do" && todo.area == some area.uuid))

/-- `write_all_items_in_area` (record branch): no line for the area itself —
its child projects via `write_projects`, then its top-level todos via
`write_todos` with the area's title as the owning-area name. -/
def write_all_items_in_area (area : Rec) (depth : String := "") : String :=
  write_projects (get_all_projects_for_area area) depth
    ++ (write_todos (get_all_todos_for_area area) depth (some area.title)).1

/-- `UUIDDoesNotResolveError`: carries the identifier and the requested kind
(the constructor arguments of the Python exception). -/
structure UUIDDoesNotResolveError where
  uuid : String
  type : Option String
  deriving DecidableEq

/-- The diagnostic message the exception's `__init__` formats from the
identifier and the requested kind. -/
def UUIDDoesNotResolveError.message (e : UUIDDoesNotResolveError) : String :=
  let type_message := match truthy e.type with
    | some t => ", or else is not of type '" ++ t ++ "'"
    | none => ""
  "The UUID " ++ e.uuid ++ " is not in the database" ++ type_message

/-- The external database accessor (`things.tasks(uuid=..., type=...)` and
`things.areas(uuid=...)`), abstract: `Except.error ()` models a raised
`ValueError`, `Except.ok none` a falsy (empty) result. -/
structure DB where
  tasks : String → Option String → Except Unit (Option Rec)
  areas : String → Except Unit (Option Rec)

/-- `uuid_to_item`: look the identifier up as a task unless the requested
kind is `area`; fall back to the area store when the kind is `area` or the
task query yields nothing; a `ValueError` or a final falsy result raises
`UUIDDoesNotResolveError`. -/
def uuid_to_item (db : DB) (uuid : String) (type : Option String := none) :
    Except UUIDDoesNotResolveError Rec :=
  let attempt : Except Unit (Option Rec) :=
    match (if type ≠ some "area" then db.tasks uuid type else Except.ok none) with
    | Except.error e => Except.error e
    | Except.ok item =>
      if type = some "area" then db.areas uuid
      else
        match item with
        | none => db.areas uuid
        | some i => Except.ok (some i)
  match attempt with
  | Except.error _ => Except.error ⟨uuid, type⟩
  | Except.ok none => Except.error ⟨uuid, type⟩
  | Except.ok (some item) => Except.ok item

/-- Modelled from the spec: the external accessor's contract (§1, §6 — query
by identifier and kind with child materialization, never part of src/).  A
ground-truth task store and area store; a typed query returns the first
record with the given uuid whose `type` matches the requested kind, an
untyped query ignores the kind; no `ValueError` is raised. -/
def accessorDB (tasks areas : List Rec) : DB where
  tasks := fun u ty =>
    Except.ok (tasks.find? (fun r => r.uuid == u && (ty.isNone || r.type == ty)))
  areas := fun u => Except.ok (areas.find? (fun r => r.uuid == u))

/-- The resolver as §4.1 of the spec words it: kind `area` goes to the area
store; otherwise the typed task query is consulted, a raised accessor error
or a final empty answer fails with the identifier and requested kind, and an
empty task answer falls back to the area store before failing. -/
def spec_resolve (db : DB) (u : String) (ty : Option String) :
    Except UUIDDoesNotResolveError Rec :=
  if ty = some "area" then
    match db.areas u with
    | Except.ok (some a) => Except.ok a
    | _ => Except.error ⟨u, ty⟩
  else
    match db.tasks u ty with
    | Except.error _ => Except.error ⟨u, ty⟩
    | Except.ok (some r) => Except.ok r
    | Except.ok none =>
      match db.areas u with
      | Except.ok (some a) => Except.ok a
      | _ => Except.error ⟨u, ty⟩

/-- The warning `export` prints when an identifier fails to resolve. -/
def warnNotFound (uuid : String) : String :=
  "Warning: UUID '" ++ uuid ++ "' was not found in the database"

/-- The warning `export` prints when a resolved item has an unrecognized
kind. -/
def warnNotItem (uuid : String) : String :=
  "Warning: the item with UUID '" ++ uuid ++ "' was not a 'to-do', 'project', or 'area'"

/-- The selective branch of `export` (one or more identifiers given): each
identifier in order is resolved without a kind; a resolution failure or an
unrecognized kind appends one warning to the diagnostic channel (second
component) and processing continues; recognized kinds append their rendering
to the output document (first component). -/
def exportSelective (db : DB) : List String → String × List String
  | [] => ("", [])
  | uuid :: rest =>
    match uuid_to_item db uuid with
    | Except.error _ =>
      let r := exportSelective db rest
      (r.1, warnNotFound uuid :: r.2)
    | Except.ok item =>
      match item.type with
      | some "to-do" =>
        let r := exportSelective db rest
        ((write_todo item).1 ++ r.1, r.2)
      | some "project" =>
        let r := exportSelective db rest
        (write_project item ++ r.1, r.2)
      | some "area" =>
        let r := exportSelective db rest
        (write_all_items_in_area item ++ r.1, r.2)
      | _ =>
        let r := exportSelective db rest
        (r.1, warnNotItem uuid :: r.2)

/-- Concatenation of a list of lists. -/
def joinL {α : Type} (l : List (List α)) : List α :=
  l.foldr (fun a b => a ++ b) []

/-- Concatenation of a list of strings. -/
def strConcat (l : List String) : String :=
  l.foldr (fun a b => a ++ b) ""

/-- A document given as a list of newline-free lines, each terminated by a
newline. -/
def unlines (L : List String) : String :=
  strConcat (L.map (fun l => l ++ "\n"))

/-- The document chunk that the selective branch of `export` contributes for
one identifier ("" when the identifier only warns). -/
def selChunk (db : DB) (u : String) : String :=
  match uuid_to_item db u with
  | Except.error _ => ""
  | Except.ok item =>
    match item.type with
    | some "to-do" => (write_todo item).1
    | some "project" => write_project item
    | some "area" => write_all_items_in_area item
    | _ => ""

/-- The diagnostic warnings the selective branch of `export` emits for one
identifier ([] when the identifier renders). -/
def selWarns (db : DB) (u : String) : List String :=
  match uuid_to_item db u with
  | Except.error _ => [warnNotFound u]
  | Except.ok item =>
    match item.type with
    | some "to-do" => []
    | some "project" => []
    | some "area" => []
    | _ => [warnNotItem u]

/-- §4.3's wording for the project extraction: the project's immediate child
todos, in accessor order. -/
def spec_direct_child_todos (p : Rec) : List Rec :=
  p.items.filter (fun todo => todo.type == some "to-do")

/-- §4.3's wording: the project's immediate headings sorted ascending by
`index`. -/
def spec_sorted_headings (p : Rec) : List Rec :=
  sortByIndex (p.items.filter (fun heading => heading.type == some "heading"))

/-- §4.3's wording: for each heading in ascending `index` order, that
heading's child todos sorted ascending by `index`, concatenated. -/
def spec_hoisted_heading_todos (p : Rec) : List Rec :=
  joinL ((spec_sorted_headings p).map
    (fun heading => sortByIndex (heading.items.filter (fun todo => todo.type == some "to-do"))))

/-- Replace the `notes` entry of a record. -/
def Rec.withNotes (r : Rec) (n : Option String) : Rec :=
  .node { r.core with notes := n } r.items

/-- Replace the `checklist` entry of a record. -/
def Rec.withChecklist (r : Rec) (c : Option (List ChecklistItem)) : Rec :=
  .node { r.core with checklist := c } r.items

/-- The lines the note of a record contributes to the output, without their
terminating newlines. -/
def noteLines (r : Rec) (depth : String) : List String :=
  match r.notes with
  | none => []
  | some note =>
    if note = "" then [] else (pySplitlines note).map (fun seg => depth ++ seg)

/-- The lines the checklist of a todo contributes to the output, without
their terminating newlines. -/
def checklistLines (r : Rec) (depth : String) : List String :=
  (r.checklist.getD []).map (fun c => depth ++ "- " ++ c.title)

/-- The lines `write_todo` emits, without their terminating newlines. -/
def todoLines (t : Rec) (depth : String) (area_name : Option String) : List String :=
  (depth ++ "- " ++ t.title ++ (_get_omnifocus_parameters t area_name).1)
    :: (noteLines t (depth ++ "\t") ++ checklistLines t (depth ++ "\t"))

/-- The lines `write_project` emits, without their terminating newlines. -/
def projectLines (p : Rec) (depth : String) : List String :=
  (depth ++ p.title ++ ":" ++ (_get_omnifocus_parameters p p.area_title).1)
    :: (noteLines p (depth ++ "\t")
        ++ joinL ((get_all_todos_for_project_in_order p).map
            (fun t => todoLines t (depth ++ "\t") none)))

/-- The lines `write_all_items_in_area` emits, without their terminating
newlines. -/
def areaLines (a : Rec) (depth : String) : List String :=
  joinL ((get_all_projects_for_area a).map (fun p => projectLines p depth))
    ++ joinL ((get_all_todos_for_area a).map (fun t => todoLines t depth (some a.title)))

/-- A string free of newline characters. -/
def CleanStr (s : String) : Prop := '\n' ∉ s.data

instance (s : String) : Decidable (CleanStr s) :=
  inferInstanceAs (Decidable ('\n' ∉ s.data))

/-- An optional string that, when present, is free of newline characters. -/
def CleanOpt : Option String → Prop
  | some s => CleanStr s
  | none => True

instance (o : Option String) : Decidable (CleanOpt o) :=
  match o with
  | some s => inferInstanceAs (Decidable (CleanStr s))
  | none => inferInstanceAs (Decidable True)

/-- A record whose single-line output ingredients (title, dates, status,
area name, tags, checklist titles) are free of newline characters; the note
may span lines. -/
def CleanRec (r : Rec) : Prop :=
  CleanStr r.title ∧ CleanOpt r.start_date ∧ CleanOpt r.deadline ∧
  CleanOpt r.start ∧ CleanOpt r.area_title ∧
  (∀ t ∈ r.tags.getD [], CleanStr t) ∧
  (∀ c ∈ r.checklist.getD [], CleanStr c.title)

instance (r : Rec) : Decidable (CleanRec r) := by
  unfold CleanRec
  infer_instance

/-- An area all of whose descendants (projects, their headings, their todos,
and its top-level todos) are `CleanRec`, and whose own title is clean. -/
def CleanArea (a : Rec) : Prop :=
  CleanStr a.title ∧
  ∀ p ∈ a.items, CleanRec p ∧ ∀ t ∈ p.items, CleanRec t ∧ ∀ u ∈ t.items, CleanRec u

instance (a : Rec) : Decidable (CleanArea a) := by
  unfold CleanArea
  infer_instance

/-- A line that cannot be a bare `<title>:` line at depth zero: it is either
indented by a tab or ends with the closing parenthesis of an `@tags(...)`
block. -/
def SafeLine (l : String) : Prop :=
  l.data.head? = some '\t' ∨ l.data.getLast? = some ')'

/-- A project with no items at all: used to exercise the empty-extraction
case of `get_all_todos_for_project_in_order`. -/
def emptyProject : Rec := .node { uuid := "p-empty", type := some "project", title := "Empty" } []

/-- A todo carrying duplicate-free unsorted tags and an `Anytime` status:
the record of the spec's tag-determinism example. -/
def anytimeTodo : Rec :=
  .node { uuid := "t-any", type := some "to-do", title := "T",
          tags := some ["b", "a"], start := some "Anytime" } []

/-- A todo with a single tag and a status: computing its parameter string
extends its `tags` list in place. -/
def mutatedTodo : Rec :=
  .node { uuid := "t-mut", type := some "to-do", title := "M",
          tags := some ["a"], start := some "Anytime" } []

/-- The direct child todo of the end-to-end scenario's project. -/
def shipTodo : Rec :=
  .node { uuid := "t-ship", type := some "to-do", title := "Ship", index := 0 } []

/-- The project of the end-to-end scenario: one direct todo, no headings. -/
def launchProject : Rec :=
  .node { uuid := "p-launch", type := some "project", title := "Launch",
          index := 0, area := some "a-work" } [shipTodo]

/-- The area of the end-to-end scenario: one project, no top-level todos. -/
def workArea : Rec :=
  .node { uuid := "a-work", title := "Work" } [launchProject]

/-- First resolvable todo of the partial-failure scenario. -/
def firstTodo : Rec :=
  .node { uuid := "valid1", type := some "to-do", title := "First" } []

/-- Second resolvable todo of the partial-failure scenario. -/
def secondTodo : Rec :=
  .node { uuid := "valid2", type := some "to-do", title := "Second" } []

/-- The database of the partial-failure scenario: two todos, no areas; the
identifier `missing` resolves to nothing. -/
def selDB : DB := accessorDB [firstTodo, secondTodo] []

/-- A resolvable record whose kind is none of `to-do`, `project`, `area`:
exercises the unrecognized-kind warning of the selective export. -/
def oddItem : Rec :=
  .node { uuid := "odd1", type := some "heading", title := "Odd" } []

/-- A database containing only `oddItem`. -/
def oddDB : DB := accessorDB [oddItem] []

/-- §4.2 step 1: the `@defer` token, present iff `start_date` is present
(and truthy). -/
def deferToken (item : Rec) : String :=
  match truthy item.start_date with
  | some w => " @defer(" ++ w ++ ")"
  | none => ""

/-- §4.2 step 2: the `@due` token, present iff `deadline` is present (and
truthy). -/
def dueToken (item : Rec) : String :=
  match truthy item.deadline with
  | some w => " @due(" ++ w ++ ")"
  | none => ""

/-- §4.2 step 4: the `@tags` token, always present. -/
def tagsToken (item : Rec) (area_name : Option String) : String :=
  " @tags(" ++ strJoin ", " (dedupSort (tagList item area_name)) ++ ")"

/-! ### Helper lemmas -/

@[simp] theorem Rec.core_node (c : RecCore) (is : List Rec) : (Rec.node c is).core = c := rfl

@[simp] theorem Rec.items_node (c : RecCore) (is : List Rec) : (Rec.node c is).items = is := rfl

@[simp] theorem Rec.withTags_uuid (r : Rec) (t : Option (List String)) :
    (r.withTags t).uuid = r.uuid := rfl

@[simp] theorem Rec.withTags_type (r : Rec) (t : Option (List String)) :
    (r.withTags t).type = r.type := rfl

@[simp] theorem Rec.withTags_title (r : Rec) (t : Option (List String)) :
    (r.withTags t).title = r.title := rfl

@[simp] theorem Rec.withTags_index (r : Rec) (t : Option (List String)) :
    (r.withTags t).index = r.index := rfl

@[simp] theorem Rec.withTags_notes (r : Rec) (t : Option (List String)) :
    (r.withTags t).notes = r.notes := rfl

@[simp] theorem Rec.withTags_tags (r : Rec) (t : Option (List String)) :
    (r.withTags t).tags = t := rfl

@[simp] theorem Rec.withTags_start (r : Rec) (t : Option (List String)) :
    (r.withTags t).start = r.start := rfl

@[simp] theorem Rec.withTags_start_date (r : Rec) (t : Option (List String)) :
    (r.withTags t).start_date = r.start_date := rfl

@[simp] theorem Rec.withTags_deadline (r : Rec) (t : Option (List String)) :
    (r.withTags t).deadline = r.deadline := rfl

@[simp] theorem Rec.withTags_area (r : Rec) (t : Option (List String)) :
    (r.withTags t).area = r.area := rfl

@[simp] theorem Rec.withTags_area_title (r : Rec) (t : Option (List String)) :
    (r.withTags t).area_title = r.area_title := rfl

@[simp] theorem Rec.withTags_checklist (r : Rec) (t : Option (List String)) :
    (r.withTags t).checklist = r.checklist := rfl

@[simp] theorem Rec.withTags_items (r : Rec) (t : Option (List String)) :
    (r.withTags t).items = r.items := rfl

theorem charListLe_total : ∀ a b : List Char, charListLe a b = true ∨ charListLe b a = true
  | [], _ => Or.inl rfl
  | _ :: _, [] => Or.inr rfl
  | a :: as, b :: bs => by
    by_cases h : a = b
    · subst h
      simpa [charListLe] using charListLe_total as bs
    · rcases lt_or_gt_of_ne h with hlt | hgt
      · exact Or.inl (by simp [charListLe, h, hlt])
      · exact Or.inr (by simp [charListLe, Ne.symm h, hgt])

theorem charListLe_trans :
    ∀ {a b c : List Char}, charListLe a b = true → charListLe b c = true →
      charListLe a c = true
  | [], _, _, _, _ => rfl
  | _ :: _, [], _, h1, _ => by simp [charListLe] at h1
  | _ :: _, _ :: _, [], _, h2 => by simp [charListLe] at h2
  | a :: as, b :: bs, c :: cs, h1, h2 => by
    by_cases hab : a = b <;> by_cases hbc : b = c
    · subst hab; subst hbc
      simp only [charListLe, if_pos rfl] at h1 h2 ⊢
      exact charListLe_trans h1 h2
    · subst hab
      simp only [charListLe, if_pos rfl] at h1
      simp only [charListLe, if_neg hbc, decide_eq_true_eq] at h2
      simp [charListLe, hbc, h2]
    · subst hbc
      simp only [charListLe, if_neg hab, decide_eq_true_eq] at h1
      simp [charListLe, hab, h1]
    · simp only [charListLe, if_neg hab, decide_eq_true_eq] at h1
      simp only [charListLe, if_neg hbc, decide_eq_true_eq] at h2
      have hac := lt_trans h1 h2
      simp [charListLe, ne_of_lt hac, hac]

theorem charListLe_antisymm :
    ∀ {a b : List Char}, charListLe a b = true → charListLe b a = true → a = b
  | [], [], _, _ => rfl
  | [], _ :: _, _, h2 => by simp [charListLe] at h2
  | _ :: _, [], h1, _ => by simp [charListLe] at h1
  | a :: as, b :: bs, h1, h2 => by
    by_cases hab : a = b
    · subst hab
      simp only [charListLe, if_pos rfl] at h1 h2
      rw [charListLe_antisymm h1 h2]
    · simp only [charListLe, if_neg hab, decide_eq_true_eq] at h1
      simp only [charListLe, if_neg (Ne.symm hab), decide_eq_true_eq] at h2
      exact absurd h2 (lt_asymm h1)

instance : IsTotal String StrLeR :=
  ⟨fun a b => charListLe_total a.data b.data⟩

instance : IsTrans String StrLeR :=
  ⟨fun _ _ _ => charListLe_trans⟩

instance : IsAntisymm String StrLeR :=
  ⟨fun a b h1 h2 => String.ext (charListLe_antisymm h1 h2)⟩

instance : IsTotal Rec IdxLeR :=
  ⟨fun a b => Int.le_total a.index b.index⟩

instance : IsTrans Rec IdxLeR :=
  ⟨fun _ _ _ h1 h2 => Int.le_trans h1 h2⟩

theorem strApp_assoc (a b c : String) : a ++ b ++ c = a ++ (b ++ c) := by
  apply String.ext
  simp [String.data_append]

theorem strApp_nil (a : String) : a ++ "" = a := by
  apply String.ext
  simp [String.data_append]

theorem nil_strApp (a : String) : "" ++ a = a := by
  apply String.ext
  simp [String.data_append]

theorem splitNL_ne_nil (l : List Char) : splitNL l ≠ [] := by
  cases l with
  | nil => simp [splitNL]
  | cons c cs =>
    simp only [splitNL]
    split
    · simp
    · split <;> simp

theorem splitNL_cons_newline (b : List Char) : splitNL ('\n' :: b) = [] :: splitNL b := by
  simp [splitNL]

theorem splitNL_line :
    ∀ (a : List Char), '\n' ∉ a → ∀ b, splitNL (a ++ '\n' :: b) = a :: splitNL b
  | [], _, b => by simp [splitNL]
  | c :: a', h, b => by
    have hc : c ≠ '\n' := fun hh => h (hh ▸ List.mem_cons_self c a')
    have ih := splitNL_line a' (fun hm => h (List.mem_cons_of_mem c hm)) b
    simp [splitNL, hc, ih]

theorem splitNL_no_newline : ∀ (l : List Char), ∀ x ∈ splitNL l, '\n' ∉ x
  | [], x, hx => by
    simp only [splitNL, List.mem_singleton] at hx
    subst hx
    simp
  | c :: cs, x, hx => by
    by_cases hc : c = '\n'
    · subst hc
      rw [splitNL_cons_newline] at hx
      rcases List.mem_cons.mp hx with rfl | hx'
      · simp
      · exact splitNL_no_newline cs x hx'
    · simp only [splitNL, if_neg hc] at hx
      cases hsp : splitNL cs with
      | nil => exact absurd hsp (splitNL_ne_nil cs)
      | cons l' ls =>
        rw [hsp] at hx
        rcases List.mem_cons.mp hx with rfl | hx'
        · intro hmem
          rcases List.mem_cons.mp hmem with h1 | h1
          · exact hc h1.symm
          · exact splitNL_no_newline cs l' (hsp ▸ List.mem_cons_self l' ls) h1
        · exact splitNL_no_newline cs x (hsp ▸ List.mem_cons_of_mem l' hx')

theorem pySplitlines_clean (s : String) : ∀ seg ∈ pySplitlines s, CleanStr seg := by
  intro seg hseg
  simp only [pySplitlines, List.mem_map] at hseg
  obtain ⟨l, hl, rfl⟩ := hseg
  have hl' : l ∈ splitNL s.data := by
    by_cases h : (splitNL s.data).getLast? = some []
    · rw [if_pos h] at hl
      exact List.dropLast_subset _ hl
    · rw [if_neg h] at hl
      exact hl
  exact splitNL_no_newline s.data l hl'

theorem strConcat_cons (x : String) (L : List String) :
    strConcat (x :: L) = x ++ strConcat L := rfl

theorem strConcat_append (A B : List String) :
    strConcat (A ++ B) = strConcat A ++ strConcat B := by
  induction A with
  | nil => simp [strConcat, nil_strApp]
  | cons x A ih =>
    simp only [List.cons_append, strConcat_cons, ih, strApp_assoc]

theorem unlines_nil : unlines [] = "" := rfl

theorem unlines_cons (x : String) (L : List String) :
    unlines (x :: L) = x ++ "\n" ++ unlines L := by
  simp [unlines, strConcat_cons, strApp_assoc]

theorem unlines_append (A B : List String) :
    unlines (A ++ B) = unlines A ++ unlines B := by
  simp [unlines, strConcat_append]

theorem unlines_joinL {α : Type} (f : α → List String) (l : List α) :
    unlines (joinL (l.map f)) = strConcat (l.map (fun x => unlines (f x))) := by
  induction l with
  | nil => rfl
  | cons x l ih =>
    simp only [List.map_cons, joinL, List.foldr_cons, unlines_append, strConcat_cons]
    rw [← ih]
    rfl

theorem strJoin_empty_sep : ∀ L : List String, strJoin "" L = strConcat L
  | [] => rfl
  | [x] => (strApp_nil x).symm
  | x :: y :: ys => by
    have ih := strJoin_empty_sep (y :: ys)
    simp only [strJoin, strConcat_cons, ih, strApp_nil]

theorem splitNL_singleton : ∀ {l : List Char}, splitNL l = [[]] → l = [] := by
  intro l h
  cases l with
  | nil => rfl
  | cons c cs =>
    by_cases hc : c = '\n'
    · subst hc
      rw [splitNL_cons_newline] at h
      exact absurd (List.cons.injEq _ _ _ _ ▸ h).2 (splitNL_ne_nil cs)
    · simp only [splitNL, if_neg hc] at h
      cases hsp : splitNL cs with
      | nil => exact absurd hsp (splitNL_ne_nil cs)
      | cons l' ls =>
        rw [hsp] at h
        exact absurd (List.cons.injEq _ _ _ _ ▸ h).1 (by simp)

theorem pySplitlines_ne_nil {s : String} (h : s ≠ "") : pySplitlines s ≠ [] := by
  have hd : s.data ≠ [] := by
    intro hh
    exact h (String.ext hh)
  simp only [pySplitlines, ne_eq, List.map_eq_nil_iff]
  split
  · cases hsp : splitNL s.data with
    | nil => exact absurd hsp (splitNL_ne_nil s.data)
    | cons x xs =>
      cases xs with
      | nil =>
        rename_i hlast
        rw [hsp] at hlast
        simp only [List.getLast?_singleton, Option.some.injEq] at hlast
        subst hlast
        exact absurd (splitNL_singleton hsp) hd
      | cons y ys => simp [hsp]
  · intro hh
    exact absurd hh (splitNL_ne_nil s.data)

theorem splitNL_unlines :
    ∀ L : List String, (∀ l ∈ L, CleanStr l) →
      splitNL (unlines L).data = L.map String.data ++ [[]]
  | [], _ => rfl
  | x :: L, h => by
    have hx : '\n' ∉ x.data := h x (List.mem_cons_self x L)
    have ih := splitNL_unlines L (fun l hl => h l (List.mem_cons_of_mem x hl))
    rw [unlines_cons]
    have hdata : (x ++ "\n" ++ unlines L).data = x.data ++ '\n' :: (unlines L).data := by
      simp [String.data_append]
    rw [hdata, splitNL_line x.data hx, ih]
    simp

theorem params_snd (t : Rec) (an : Option String) :
    (_get_omnifocus_parameters t an).2 =
      match t.tags with
      | some _ => t.withTags (some (tagList t an))
      | none => t := rfl

theorem params_snd_notes (t : Rec) (an : Option String) :
    (_get_omnifocus_parameters t an).2.notes = t.notes := by
  cases h : t.tags <;> simp [params_snd, h]

theorem params_snd_checklist (t : Rec) (an : Option String) :
    (_get_omnifocus_parameters t an).2.checklist = t.checklist := by
  cases h : t.tags <;> simp [params_snd, h]

theorem params_snd_items (t : Rec) (an : Option String) :
    (_get_omnifocus_parameters t an).2.items = t.items := by
  cases h : t.tags <;> simp [params_snd, h]

theorem params_snd_title (t : Rec) (an : Option String) :
    (_get_omnifocus_parameters t an).2.title = t.title := by
  cases h : t.tags <;> simp [params_snd, h]

theorem params_snd_start (t : Rec) (an : Option String) :
    (_get_omnifocus_parameters t an).2.start = t.start := by
  cases h : t.tags <;> simp [params_snd, h]

theorem params_snd_start_date (t : Rec) (an : Option String) :
    (_get_omnifocus_parameters t an).2.start_date = t.start_date := by
  cases h : t.tags <;> simp [params_snd, h]

theorem params_snd_deadline (t : Rec) (an : Option String) :
    (_get_omnifocus_parameters t an).2.deadline = t.deadline := by
  cases h : t.tags <;> simp [params_snd, h]

theorem params_snd_area_title (t : Rec) (an : Option String) :
    (_get_omnifocus_parameters t an).2.area_title = t.area_title := by
  cases h : t.tags <;> simp [params_snd, h]

theorem note_congr (r r' : Rec) (h : r.notes = r'.notes) (d : String) :
    _write_note_if_any r d = _write_note_if_any r' d := by
  unfold _write_note_if_any
  rw [h]

theorem checklist_congr (r r' : Rec) (h : r.checklist = r'.checklist) (d : String) :
    _write_checklist_if_any r d = _write_checklist_if_any r' d := by
  unfold _write_checklist_if_any
  rw [h]

theorem get_all_congr (r r' : Rec) (h : r.items = r'.items) :
    get_all_todos_for_project_in_order r = get_all_todos_for_project_in_order r' := by
  unfold get_all_todos_for_project_in_order
  rw [h]

theorem join_indent (d : String) :
    ∀ (segs : List String), segs ≠ [] →
      d ++ strJoin ("\n" ++ d) segs ++ "\n" = unlines (segs.map (fun seg => d ++ seg))
  | [], h => absurd rfl h
  | [s], _ => by
    simp only [strJoin, List.map_cons, List.map_nil, unlines_cons, unlines_nil, strApp_nil]
  | s :: s2 :: ss, _ => by
    have e : strJoin ("\n" ++ d) (s :: s2 :: ss)
        = s ++ ("\n" ++ d) ++ strJoin ("\n" ++ d) (s2 :: ss) := rfl
    have ih := join_indent d (s2 :: ss) (by simp)
    rw [List.map_cons, unlines_cons, ← ih, e]
    apply String.ext
    simp [String.data_append]

theorem note_unlines (r : Rec) (d : String) :
    _write_note_if_any r d = unlines (noteLines r d) := by
  unfold _write_note_if_any noteLines
  cases hn : r.notes with
  | none => rfl
  | some note =>
    by_cases h0 : note = ""
    · simp [h0, unlines_nil]
    · simp only [if_neg h0]
      exact join_indent d (pySplitlines note) (pySplitlines_ne_nil h0)

theorem checklist_unlines (r : Rec) (d : String) :
    _write_checklist_if_any r d = unlines (checklistLines r d) := by
  unfold _write_checklist_if_any checklistLines
  cases hc : r.checklist.getD [] with
  | nil => rfl
  | cons c cl =>
    show strJoin "" (List.map (fun c => d ++ "- " ++ c.title ++ "\n") (c :: cl))
      = unlines (List.map (fun c => d ++ "- " ++ c.title) (c :: cl))
    rw [strJoin_empty_sep]
    simp only [unlines, List.map_map]
    rfl

theorem todo_unlines (t : Rec) (d : String) (an : Option String) :
    (write_todo t d an).1 = unlines (todoLines t d an) := by
  have h : (write_todo t d an).1
      = d ++ "- " ++ t.title ++ (_get_omnifocus_parameters t an).1 ++ "\n"
        ++ _write_note_if_any (_get_omnifocus_parameters t an).2 (d ++ "\t")
        ++ _write_checklist_if_any (_get_omnifocus_parameters t an).2 (d ++ "\t") := rfl
  rw [h, note_congr _ t (params_snd_notes t an), checklist_congr _ t (params_snd_checklist t an)]
  simp only [todoLines, unlines_cons, unlines_append, ← note_unlines, ← checklist_unlines]
  apply String.ext
  simp [String.data_append]

theorem write_todos_concat (ts : List Rec) (d : String) (an : Option String) :
    (write_todos ts d an).1 = strConcat (ts.map (fun t => (write_todo t d an).1)) := by
  induction ts with
  | nil => rfl
  | cons t ts ih => simp [write_todos, strConcat_cons, ih]

theorem project_unlines (p : Rec) (d : String) :
    write_project p d = unlines (projectLines p d) := by
  have h : write_project p d
      = d ++ p.title ++ ":" ++ (_get_omnifocus_parameters p p.area_title).1 ++ "\n"
        ++ _write_note_if_any (_get_omnifocus_parameters p p.area_title).2 (d ++ "\t")
        ++ (write_todos
            (get_all_todos_for_project_in_order (_get_omnifocus_parameters p p.area_title).2)
            (d ++ "\t") none).1 := rfl
  rw [h, note_congr _ p (params_snd_notes p p.area_title),
    get_all_congr _ p (params_snd_items p p.area_title), write_todos_concat]
  have hmap : (get_all_todos_for_project_in_order p).map
        (fun t => (write_todo t (d ++ "\t") none).1)
      = (get_all_todos_for_project_in_order p).map
        (fun t => unlines (todoLines t (d ++ "\t") none)) :=
    List.map_congr_left (fun t _ => todo_unlines t (d ++ "\t") none)
  rw [hmap]
  simp only [projectLines, unlines_cons, unlines_append, ← note_unlines, unlines_joinL]
  apply String.ext
  simp [String.data_append]

theorem write_projects_concat (ps : List Rec) (d : String) :
    write_projects ps d = strConcat (ps.map (fun p => write_project p d)) := by
  induction ps with
  | nil => rfl
  | cons p ps ih => simp [write_projects, strConcat_cons, ih]

theorem area_unlines (a : Rec) (d : String) :
    write_all_items_in_area a d = unlines (areaLines a d) := by
  unfold write_all_items_in_area areaLines
  rw [unlines_append, unlines_joinL, unlines_joinL, write_projects_concat, write_todos_concat]
  have h1 : (get_all_projects_for_area a).map (fun p => write_project p d)
      = (get_all_projects_for_area a).map (fun p => unlines (projectLines p d)) :=
    List.map_congr_left (fun p _ => project_unlines p d)
  have h2 : (get_all_todos_for_area a).map (fun t => (write_todo t d (some a.title)).1)
      = (get_all_todos_for_area a).map (fun t => unlines (todoLines t d (some a.title))) :=
    List.map_congr_left (fun t _ => todo_unlines t d (some a.title))
  rw [h1, h2]

theorem params_fst (t : Rec) (an : Option String) :
    (_get_omnifocus_parameters t an).1
      = deferToken t ++ dueToken t ++ tagsToken t an := by
  have h : (_get_omnifocus_parameters t an).1
      = ("" ++ deferToken t ++ dueToken t) ++ " @tags("
        ++ strJoin ", " (dedupSort (tagList t an)) ++ ")" := rfl
  rw [h]
  apply String.ext
  simp [String.data_append, tagsToken]

theorem truthy_eq {o : Option String} {w : String} (h : truthy o = some w) : o = some w := by
  cases o with
  | none => exact absurd h (by simp [truthy])
  | some s =>
    simp only [truthy] at h
    by_cases h0 : s = ""
    · rw [if_pos h0] at h
      exact absurd h (by simp)
    · rw [if_neg h0] at h
      rw [← h]

theorem cleanStr_append {a b : String} (ha : CleanStr a) (hb : CleanStr b) :
    CleanStr (a ++ b) := by
  simp only [CleanStr, String.data_append, List.mem_append]
  rintro (h | h)
  · exact ha h
  · exact hb h

theorem cleanStr_replaceSpaces {s : String} (h : CleanStr s) :
    CleanStr (replaceSpaces s) := by
  simp only [CleanStr, replaceSpaces, List.mem_map, not_exists]
  rintro c ⟨hc, hmap⟩
  by_cases hsp : c = ' '
  · rw [if_pos hsp] at hmap
    exact absurd hmap (by decide)
  · rw [if_neg hsp] at hmap
    exact h (hmap ▸ hc)

theorem cleanStr_strJoin {sep : String} (hsep : CleanStr sep) :
    ∀ L : List String, (∀ x ∈ L, CleanStr x) → CleanStr (strJoin sep L)
  | [], _ => by
    show CleanStr ""
    decide
  | [x], h => h x (List.mem_singleton.mpr rfl)
  | x :: y :: ys, h => by
    have hx := h x (List.mem_cons_self x (y :: ys))
    have hrest := cleanStr_strJoin hsep (y :: ys) (fun z hz => h z (List.mem_cons_of_mem x hz))
    exact cleanStr_append (cleanStr_append hx hsep) hrest

theorem mem_dedupSort {x : String} {l : List String} : x ∈ dedupSort l ↔ x ∈ l := by
  simp [dedupSort, List.mem_dedup]

theorem mem_tagList {x : String} {r : Rec} {an : Option String} :
    x ∈ tagList r an
      ↔ x ∈ r.tags.getD [] ∨ truthy r.start = some x
        ∨ ∃ an0, truthy an = some an0 ∧ x = "area-" ++ replaceSpaces an0 := by
  unfold tagList
  cases hs : truthy r.start <;> cases ha : truthy an <;>
    simp [List.mem_append, or_assoc, eq_comm]

theorem cleanRec_tagList {r : Rec} {an : Option String}
    (hr : CleanRec r) (han : CleanOpt an) :
    ∀ x ∈ tagList r an, CleanStr x := by
  intro x hx
  rcases mem_tagList.mp hx with h | h | ⟨an0, han0, rfl⟩
  · exact hr.2.2.2.2.2.1 x h
  · have := truthy_eq h
    have hcs : CleanOpt r.start := hr.2.2.2.1
    rw [this] at hcs
    exact hcs
  · have := truthy_eq han0
    rw [this] at han
    exact cleanStr_append (by decide) (cleanStr_replaceSpaces han)

theorem params_clean {r : Rec} {an : Option String}
    (hr : CleanRec r) (han : CleanOpt an) :
    CleanStr (_get_omnifocus_parameters r an).1 := by
  rw [params_fst]
  apply cleanStr_append
  apply cleanStr_append
  · unfold deferToken
    cases hd : truthy r.start_date with
    | none => decide
    | some w =>
      have hw : CleanStr w := by
        have := truthy_eq hd
        have hc : CleanOpt r.start_date := hr.2.1
        rw [this] at hc
        exact hc
      exact cleanStr_append (cleanStr_append (by decide) hw) (by decide)
  · unfold dueToken
    cases hd : truthy r.deadline with
    | none => decide
    | some w =>
      have hw : CleanStr w := by
        have := truthy_eq hd
        have hc : CleanOpt r.deadline := hr.2.2.1
        rw [this] at hc
        exact hc
      exact cleanStr_append (cleanStr_append (by decide) hw) (by decide)
  · unfold tagsToken
    apply cleanStr_append
    apply cleanStr_append
    · decide
    · exact cleanStr_strJoin (by decide) _
        (fun x hx => cleanRec_tagList hr han x (mem_dedupSort.mp hx))
    · decide

theorem params_lastChar (r : Rec) (an : Option String) :
    (_get_omnifocus_parameters r an).1.data.getLast? = some ')' := by
  have h : (_get_omnifocus_parameters r an).1
      = (("" ++ deferToken r ++ dueToken r) ++ " @tags("
        ++ strJoin ", " (dedupSort (tagList r an))) ++ ")" := by
    rw [params_fst]
    apply String.ext
    simp [String.data_append, tagsToken]
  rw [h, String.data_append]
  exact List.getLast?_concat _

theorem mem_joinL {α : Type} {x : α} :
    ∀ {L : List (List α)}, x ∈ joinL L ↔ ∃ l ∈ L, x ∈ l := by
  intro L
  induction L with
  | nil => simp [joinL]
  | cons l L ih =>
    have h : joinL (l :: L) = l ++ joinL L := rfl
    rw [h]
    simp only [List.mem_append, ih, List.mem_cons]
    constructor
    · rintro (h1 | ⟨l', hl', hx⟩)
      · exact ⟨l, Or.inl rfl, h1⟩
      · exact ⟨l', Or.inr hl', hx⟩
    · rintro ⟨l', (rfl | hl'), hx⟩
      · exact Or.inl hx
      · exact Or.inr ⟨l', hl', hx⟩

theorem params_data_ne_nil (r : Rec) (an : Option String) :
    (_get_omnifocus_parameters r an).1.data ≠ [] := by
  intro h
  have := params_lastChar r an
  rw [h] at this
  exact absurd this (by simp)

theorem mem_foldl_append {α β : Type} (f : α → List β) :
    ∀ (l : List α) (init : List β) (x : β),
      x ∈ l.foldl (fun acc a => acc ++ f a) init ↔ x ∈ init ∨ ∃ a ∈ l, x ∈ f a := by
  intro l
  induction l with
  | nil => simp
  | cons a l ih =>
    intro init x
    rw [List.foldl_cons, ih]
    simp only [List.mem_append, List.mem_cons]
    constructor
    · rintro ((h | h) | ⟨b, hb, hx⟩)
      · exact Or.inl h
      · exact Or.inr ⟨a, Or.inl rfl, h⟩
      · exact Or.inr ⟨b, Or.inr hb, hx⟩
    · rintro (h | ⟨b, (rfl | hb), hx⟩)
      · exact Or.inl (Or.inl h)
      · exact Or.inl (Or.inr hx)
      · exact Or.inr ⟨b, hb, hx⟩

theorem mem_sortByIndex {x : Rec} {l : List Rec} : x ∈ sortByIndex l ↔ x ∈ l := by
  simp [sortByIndex]

theorem mem_get_all {t p : Rec} (h : t ∈ get_all_todos_for_project_in_order p) :
    t ∈ p.items ∨ ∃ hd ∈ p.items, t ∈ hd.items := by
  unfold get_all_todos_for_project_in_order at h
  rcases List.mem_append.mp h with h1 | h1
  · exact Or.inl (List.mem_of_mem_filter h1)
  · rw [mem_foldl_append] at h1
    rcases h1 with h1 | ⟨hd, hhd, ht⟩
    · exact absurd h1 (List.not_mem_nil t)
    · refine Or.inr ⟨hd, ?_, List.mem_of_mem_filter (mem_sortByIndex.mp ht)⟩
      exact List.mem_of_mem_filter (mem_sortByIndex.mp hhd)

theorem depth_tab_head {d : String} (hdep : d = "" ∨ d.data.head? = some '\t') :
    (d ++ "\t").data.head? = some '\t' := by
  rcases hdep with rfl | hd
  · decide
  · have hne : d.data ≠ [] := by
      intro h0
      rw [h0] at hd
      exact absurd hd (by simp)
    rw [String.data_append, List.head?_append_of_ne_nil _ hne]
    exact hd

theorem head_of_prefixed {pre rest : String} (hpre : pre.data.head? = some '\t') :
    (pre ++ rest).data.head? = some '\t' := by
  have hne : pre.data ≠ [] := by
    intro h0
    rw [h0] at hpre
    exact absurd hpre (by simp)
  rw [String.data_append, List.head?_append_of_ne_nil _ hne]
  exact hpre

theorem cleanOpt_none : CleanOpt none := trivial

theorem cleanOpt_some {s : String} (h : CleanStr s) : CleanOpt (some s) := h

theorem noteLines_safe {r : Rec} {d : String} (hd : CleanStr d)
    (hdep : d = "" ∨ d.data.head? = some '\t') :
    ∀ l ∈ noteLines r (d ++ "\t"), CleanStr l ∧ SafeLine l := by
  intro l hl
  rcases hn : r.notes with _ | note
  · have he : noteLines r (d ++ "\t") = [] := by
      unfold noteLines
      rw [hn]
    rw [he] at hl
    exact absurd hl (List.not_mem_nil l)
  · have he : noteLines r (d ++ "\t")
        = if note = "" then []
          else (pySplitlines note).map (fun seg => d ++ "\t" ++ seg) := by
      unfold noteLines
      rw [hn]
    rw [he] at hl
    by_cases h0 : note = ""
    · rw [if_pos h0] at hl
      exact absurd hl (List.not_mem_nil l)
    · rw [if_neg h0] at hl
      obtain ⟨seg, hseg, rfl⟩ := List.mem_map.mp hl
      have hsc := pySplitlines_clean note seg hseg
      refine ⟨cleanStr_append (cleanStr_append hd (by decide)) hsc, Or.inl ?_⟩
      exact head_of_prefixed (depth_tab_head hdep)

theorem checklistLines_safe {r : Rec} {d : String} (hr : CleanRec r) (hd : CleanStr d)
    (hdep : d = "" ∨ d.data.head? = some '\t') :
    ∀ l ∈ checklistLines r (d ++ "\t"), CleanStr l ∧ SafeLine l := by
  intro l hl
  unfold checklistLines at hl
  obtain ⟨c, hc, rfl⟩ := List.mem_map.mp hl
  have hct : CleanStr c.title := hr.2.2.2.2.2.2 c hc
  constructor
  · exact cleanStr_append (cleanStr_append (cleanStr_append hd (by decide)) (by decide)) hct
  · refine Or.inl ?_
    have h1 : (d ++ "\t" ++ "- " ++ c.title) = (d ++ "\t") ++ ("- " ++ c.title) := by
      rw [strApp_assoc]
    rw [h1]
    exact head_of_prefixed (depth_tab_head hdep)

theorem mainLine_safe {pre : String} (r : Rec) (an : Option String) :
    SafeLine (pre ++ (_get_omnifocus_parameters r an).1) := by
  refine Or.inr ?_
  rw [String.data_append, List.getLast?_append_of_ne_nil _ (params_data_ne_nil r an)]
  exact params_lastChar r an

theorem todoLines_safe {t : Rec} {d : String} {an : Option String}
    (ht : CleanRec t) (han : CleanOpt an) (hd : CleanStr d)
    (hdep : d = "" ∨ d.data.head? = some '\t') :
    ∀ l ∈ todoLines t d an, CleanStr l ∧ SafeLine l := by
  intro l hl
  unfold todoLines at hl
  rcases List.mem_cons.mp hl with rfl | hl'
  · constructor
    · exact cleanStr_append
        (cleanStr_append (cleanStr_append hd (by decide)) ht.1)
        (params_clean ht han)
    · exact mainLine_safe t an
  · rcases List.mem_append.mp hl' with hnl | hcl
    · exact noteLines_safe hd hdep l hnl
    · exact checklistLines_safe ht hd hdep l hcl

theorem projectLines_safe {p : Rec} {d : String}
    (hp : CleanRec p)
    (hchildren : ∀ t ∈ p.items, CleanRec t ∧ ∀ u ∈ t.items, CleanRec u)
    (hd : CleanStr d)
    (hdep : d = "" ∨ d.data.head? = some '\t') :
    ∀ l ∈ projectLines p d, CleanStr l ∧ SafeLine l := by
  intro l hl
  unfold projectLines at hl
  rcases List.mem_cons.mp hl with rfl | hl'
  · constructor
    · exact cleanStr_append
        (cleanStr_append (cleanStr_append hd hp.1) (by decide))
        (params_clean hp hp.2.2.2.2.1)
    · exact mainLine_safe p p.area_title
  · rcases List.mem_append.mp hl' with hnl | htl
    · exact noteLines_safe hd hdep l hnl
    · obtain ⟨ll, hll, hlin⟩ := mem_joinL.mp htl
      obtain ⟨t, htmem, rfl⟩ := List.mem_map.mp hll
      have htc : CleanRec t := by
        rcases mem_get_all htmem with h1 | ⟨hd', hhd, ht2⟩
        · exact (hchildren t h1).1
        · exact (hchildren hd' hhd).2 t ht2
      exact todoLines_safe htc cleanOpt_none (cleanStr_append hd (by decide))
        (Or.inr (depth_tab_head hdep)) l hlin

theorem areaLines_safe {a : Rec} (hA : CleanArea a) :
    ∀ l ∈ areaLines a "", CleanStr l ∧ SafeLine l := by
  intro l hl
  unfold areaLines at hl
  rcases List.mem_append.mp hl with h1 | h1
  · obtain ⟨ll, hll, hlin⟩ := mem_joinL.mp h1
    obtain ⟨p, hpmem, rfl⟩ := List.mem_map.mp hll
    have hpa : p ∈ a.items :=
      List.mem_of_mem_filter (mem_sortByIndex.mp hpmem)
    exact projectLines_safe (hA.2 p hpa).1 (fun t ht => (hA.2 p hpa).2 t ht)
      (by decide) (Or.inl rfl) l hlin
  · obtain ⟨ll, hll, hlin⟩ := mem_joinL.mp h1
    obtain ⟨t, htmem, rfl⟩ := List.mem_map.mp hll
    have hta : t ∈ a.items :=
      List.mem_of_mem_filter (mem_sortByIndex.mp htmem)
    exact todoLines_safe (hA.2 t hta).1 (cleanOpt_some hA.1) (by decide) (Or.inl rfl) l hlin

theorem Rec.withNotes_title (r : Rec) (n : Option String) : (r.withNotes n).title = r.title := rfl

theorem Rec.withNotes_notes (r : Rec) (n : Option String) : (r.withNotes n).notes = n := rfl

theorem Rec.withNotes_tags (r : Rec) (n : Option String) : (r.withNotes n).tags = r.tags := rfl

theorem Rec.withNotes_start (r : Rec) (n : Option String) : (r.withNotes n).start = r.start := rfl

theorem Rec.withNotes_start_date (r : Rec) (n : Option String) :
    (r.withNotes n).start_date = r.start_date := rfl

theorem Rec.withNotes_deadline (r : Rec) (n : Option String) :
    (r.withNotes n).deadline = r.deadline := rfl

theorem Rec.withNotes_checklist (r : Rec) (n : Option String) :
    (r.withNotes n).checklist = r.checklist := rfl

theorem Rec.withChecklist_title (r : Rec) (c : Option (List ChecklistItem)) :
    (r.withChecklist c).title = r.title := rfl

theorem Rec.withChecklist_notes (r : Rec) (c : Option (List ChecklistItem)) :
    (r.withChecklist c).notes = r.notes := rfl

theorem Rec.withChecklist_tags (r : Rec) (c : Option (List ChecklistItem)) :
    (r.withChecklist c).tags = r.tags := rfl

theorem Rec.withChecklist_start (r : Rec) (c : Option (List ChecklistItem)) :
    (r.withChecklist c).start = r.start := rfl

theorem Rec.withChecklist_start_date (r : Rec) (c : Option (List ChecklistItem)) :
    (r.withChecklist c).start_date = r.start_date := rfl

theorem Rec.withChecklist_deadline (r : Rec) (c : Option (List ChecklistItem)) :
    (r.withChecklist c).deadline = r.deadline := rfl

theorem Rec.withChecklist_checklist (r : Rec) (c : Option (List ChecklistItem)) :
    (r.withChecklist c).checklist = c := rfl

theorem foldl_append_eq_joinL {α β : Type} (f : α → List β) (l : List α) :
    l.foldl (fun acc a => acc ++ f a) [] = joinL (l.map f) := by
  suffices h : ∀ init, l.foldl (fun acc a => acc ++ f a) init = init ++ joinL (l.map f) by
    simpa using h []
  induction l with
  | nil =>
    intro init
    simp [joinL]
  | cons a l ih =>
    intro init
    rw [List.foldl_cons, ih]
    have h : joinL ((a :: l).map f) = f a ++ joinL (l.map f) := rfl
    rw [h, List.append_assoc]

theorem dedupSort_congr {l1 l2 : List String} (h : ∀ x, x ∈ l1 ↔ x ∈ l2) :
    dedupSort l1 = dedupSort l2 := by
  apply List.eq_of_perm_of_sorted (r := StrLeR)
  · exact (List.perm_insertionSort _ _).trans
      (((List.perm_ext_iff_of_nodup (List.nodup_dedup l1) (List.nodup_dedup l2)).mpr
          (fun a => by simp [List.mem_dedup, h a])).trans
        (List.perm_insertionSort _ _).symm)
  · exact List.sorted_insertionSort StrLeR _
  · exact List.sorted_insertionSort StrLeR _

theorem params_fst_fields {r1 r2 : Rec}
    (h1 : r1.start_date = r2.start_date) (h2 : r1.deadline = r2.deadline)
    (h3 : r1.start = r2.start) (h4 : r1.tags = r2.tags) (an : Option String) :
    (_get_omnifocus_parameters r1 an).1 = (_get_omnifocus_parameters r2 an).1 := by
  rw [params_fst, params_fst]
  unfold deferToken dueToken tagsToken tagList
  rw [h1, h2, h3, h4]

theorem write_todo_shape (t : Rec) (d : String) (an : Option String) :
    (write_todo t d an).1
      = d ++ "- " ++ t.title ++ (_get_omnifocus_parameters t an).1 ++ "\n"
        ++ _write_note_if_any (_get_omnifocus_parameters t an).2 (d ++ "\t")
        ++ _write_checklist_if_any (_get_omnifocus_parameters t an).2 (d ++ "\t") := rfl

theorem write_todo_snd (t : Rec) (d : String) (an : Option String) :
    (write_todo t d an).2 = (_get_omnifocus_parameters t an).2 := rfl

theorem write_project_shape (p : Rec) (d : String) :
    write_project p d
      = d ++ p.title ++ ":" ++ (_get_omnifocus_parameters p p.area_title).1 ++ "\n"
        ++ _write_note_if_any (_get_omnifocus_parameters p p.area_title).2 (d ++ "\t")
        ++ (write_todos
            (get_all_todos_for_project_in_order (_get_omnifocus_parameters p p.area_title).2)
            (d ++ "\t") none).1 := rfl

/-! ### Claim theorems -/

/-- C1: for every project record, the extracted todo sequence equals the
project's direct-child todos in accessor order followed by, for each heading
in ascending `index` order, that heading's child todos sorted ascending by
`index`; every heading-derived todo therefore comes after every direct-child
todo, and a project with no todos anywhere yields the empty list. -/
theorem C1_project_todo_order (p : Rec) :
    get_all_todos_for_project_in_order p
        = spec_direct_child_todos p ++ spec_hoisted_heading_todos p
      ∧ List.Sorted IdxLeR (spec_sorted_headings p)
      ∧ (∀ hd ∈ spec_sorted_headings p,
          List.Sorted IdxLeR
            (sortByIndex (hd.items.filter (fun todo => todo.type == some "to-do"))))
      ∧ ((spec_direct_child_todos p = [] ∧
            ∀ hd ∈ p.items.filter (fun heading => heading.type == some "heading"),
              hd.items.filter (fun todo => todo.type == some "to-do") = []) →
          get_all_todos_for_project_in_order p = []) := by
  have hshape : get_all_todos_for_project_in_order p
      = p.items.filter (fun todo => todo.type == some "to-do")
        ++ (sortByIndex (p.items.filter (fun heading => heading.type == some "heading"))).foldl
            (fun acc heading =>
              acc ++ sortByIndex (heading.items.filter (fun todo => todo.type == some "to-do")))
            [] := rfl
  refine ⟨?_, ?_, ?_, ?_⟩
  · rw [hshape, foldl_append_eq_joinL]
    rfl
  · exact List.sorted_insertionSort IdxLeR _
  · intro hd _
    exact List.sorted_insertionSort IdxLeR _
  · rintro ⟨hdir, hhead⟩
    have hdir' : p.items.filter (fun todo => todo.type == some "to-do") = [] := hdir
    rw [hshape, hdir', List.nil_append, foldl_append_eq_joinL]
    apply List.eq_nil_iff_forall_not_mem.mpr
    intro x hx
    obtain ⟨ll, hll, hxin⟩ := mem_joinL.mp hx
    obtain ⟨hd, hmem, rfl⟩ := List.mem_map.mp hll
    rw [hhead hd (mem_sortByIndex.mp hmem)] at hxin
    simp [sortByIndex] at hxin

/-- C1 witness: a project with no items at all extracts the empty todo
sequence. -/
theorem C1_witness : get_all_todos_for_project_in_order emptyProject = [] :=
  (C1_project_todo_order emptyProject).2.2.2 ⟨rfl, by simp [emptyProject]⟩

/-- C4: the annotation is the `@defer` token (iff `start_date` is truthy),
then the `@due` token (iff `deadline` is truthy), then the always-present
`@tags(...)` token whose content is the record's tags plus the truthy
`start` status plus the synthesized area tag, deduplicated, sorted
lexicographically and joined by comma-space; tags `{"b","a"}` with status
`"Anytime"` yield `@tags(Anytime, a, b)`. -/
theorem C4_annotation_structure (item : Rec) (an : Option String) :
    ((_get_omnifocus_parameters item an).1
        = deferToken item ++ dueToken item ++ tagsToken item an)
      ∧ tagsToken item an
          = " @tags(" ++ strJoin ", " (dedupSort (tagList item an)) ++ ")"
      ∧ List.Sorted StrLeR (dedupSort (tagList item an))
      ∧ (dedupSort (tagList item an)).Nodup
      ∧ (∀ x, x ∈ dedupSort (tagList item an)
          ↔ x ∈ item.tags.getD [] ∨ truthy item.start = some x
            ∨ ∃ an0, truthy an = some an0 ∧ x = "area-" ++ replaceSpaces an0)
      ∧ (_get_omnifocus_parameters anytimeTodo none).1 = " @tags(Anytime, a, b)" := by
  refine ⟨params_fst item an, rfl, List.sorted_insertionSort StrLeR _, ?_, ?_, rfl⟩
  · exact (List.perm_insertionSort StrLeR (tagList item an).dedup).nodup_iff.mpr
      (List.nodup_dedup _)
  · intro x
    rw [mem_dedupSort, mem_tagList]

/-- C9: a todo renders as `<depth>- <title><params>\n` followed by its note
and checklist one tab deeper; a project renders as `<depth><title>:<params>\n`
followed by its note and ordered todos one tab deeper; the end-to-end
scenario (area "Work" ⊃ project "Launch" ⊃ todo "Ship", no notes, checklists
or headings) produces exactly the project line and a tab-indented todo line,
each carrying `@tags()`. -/
theorem C9_rendered_line_formats :
    (∀ (t : Rec) (d : String) (an : Option String),
        (write_todo t d an).1
          = d ++ "- " ++ t.title ++ (_get_omnifocus_parameters t an).1 ++ "\n"
            ++ _write_note_if_any (_get_omnifocus_parameters t an).2 (d ++ "\t")
            ++ _write_checklist_if_any (_get_omnifocus_parameters t an).2 (d ++ "\t"))
      ∧ (∀ (p : Rec) (d : String),
          write_project p d
            = d ++ p.title ++ ":" ++ (_get_omnifocus_parameters p p.area_title).1 ++ "\n"
              ++ _write_note_if_any (_get_omnifocus_parameters p p.area_title).2 (d ++ "\t")
              ++ (write_todos (get_all_todos_for_project_in_order p) (d ++ "\t") none).1)
      ∧ write_all_items_in_area workArea ""
          = "Launch: @tags()\n\t- Ship @tags()\n" := by
  refine ⟨fun t d an => write_todo_shape t d an, fun p d => ?_, rfl⟩
  rw [write_project_shape, get_all_congr _ p (params_snd_items p p.area_title)]

/-- C10: a `notes` key holding the empty string emits no note lines, exactly
as an absent key does, and a `checklist` key holding the empty collection
emits no checklist lines, exactly as an absent key does; the rendered todo
is identical in both cases. -/
theorem C10_empty_note_empty_checklist (r : Rec) (d : String) (an : Option String) :
    _write_note_if_any (r.withNotes (some "")) d = ""
      ∧ _write_note_if_any (r.withNotes none) d = ""
      ∧ _write_checklist_if_any (r.withChecklist (some [])) d = ""
      ∧ _write_checklist_if_any (r.withChecklist none) d = ""
      ∧ (write_todo (r.withNotes (some "")) d an).1 = (write_todo (r.withNotes none) d an).1
      ∧ (write_todo (r.withChecklist (some [])) d an).1
          = (write_todo (r.withChecklist none) d an).1 := by
  have hn1 : ∀ d0 : String, _write_note_if_any (r.withNotes (some "")) d0 = "" := by
    intro d0
    unfold _write_note_if_any
    rw [Rec.withNotes_notes]
    rfl
  have hn2 : ∀ d0 : String, _write_note_if_any (r.withNotes none) d0 = "" := by
    intro d0
    unfold _write_note_if_any
    rw [Rec.withNotes_notes]
  have hc1 : ∀ d0 : String, _write_checklist_if_any (r.withChecklist (some [])) d0 = "" := by
    intro d0
    unfold _write_checklist_if_any
    rw [Rec.withChecklist_checklist]
    rfl
  have hc2 : ∀ d0 : String, _write_checklist_if_any (r.withChecklist none) d0 = "" := by
    intro d0
    unfold _write_checklist_if_any
    rw [Rec.withChecklist_checklist]
    rfl
  refine ⟨hn1 d, hn2 d, hc1 d, hc2 d, ?_, ?_⟩
  · have hp : (_get_omnifocus_parameters (r.withNotes (some "")) an).1
        = (_get_omnifocus_parameters (r.withNotes none) an).1 :=
      params_fst_fields rfl rfl rfl rfl an
    rw [write_todo_shape, write_todo_shape, hp,
      note_congr _ (r.withNotes (some "")) (params_snd_notes _ an),
      note_congr _ (r.withNotes none) (params_snd_notes _ an),
      checklist_congr _ (r.withNotes (some "")) (params_snd_checklist _ an),
      checklist_congr _ (r.withNotes none) (params_snd_checklist _ an),
      hn1 (d ++ "\t"), hn2 (d ++ "\t"),
      checklist_congr (r.withNotes (some "")) (r.withNotes none)
        ((Rec.withNotes_checklist r (some "")).trans (Rec.withNotes_checklist r none).symm),
      Rec.withNotes_title, Rec.withNotes_title]
  · have hp : (_get_omnifocus_parameters (r.withChecklist (some [])) an).1
        = (_get_omnifocus_parameters (r.withChecklist none) an).1 :=
      params_fst_fields rfl rfl rfl rfl an
    rw [write_todo_shape, write_todo_shape, hp,
      note_congr _ (r.withChecklist (some [])) (params_snd_notes _ an),
      note_congr _ (r.withChecklist none) (params_snd_notes _ an),
      checklist_congr _ (r.withChecklist (some [])) (params_snd_checklist _ an),
      checklist_congr _ (r.withChecklist none) (params_snd_checklist _ an),
      hc1 (d ++ "\t"), hc2 (d ++ "\t"),
      note_congr (r.withChecklist (some [])) (r.withChecklist none)
        ((Rec.withChecklist_notes r (some [])).trans (Rec.withChecklist_notes r none).symm),
      Rec.withChecklist_title, Rec.withChecklist_title]

/-- C5 counterexample: computing the parameter string for a todo whose
`tags` key is present and whose `start` status is set does not leave the
record unchanged — the status is appended to its tags collection. -/
theorem C5_counterexample :
    (_get_omnifocus_parameters mutatedTodo none).2 ≠ mutatedTodo :=
  fun h => absurd (congrArg Rec.tags h) (by decide)

/-- C5 (amended): the synthesizer mutates its record exactly when the `tags`
key is present, replacing the tags collection by the extended tag list
(record unchanged when `tags` is absent, or when neither a truthy `start`
nor a truthy area name contributes an extra tag). -/
theorem C5_mutation (r : Rec) (an : Option String) :
    ((_get_omnifocus_parameters r an).2
        = match r.tags with
          | some _ => r.withTags (some (tagList r an))
          | none => r)
      ∧ (r.tags = none → (_get_omnifocus_parameters r an).2 = r)
      ∧ ((truthy r.start = none ∧ truthy an = none) →
          (_get_omnifocus_parameters r an).2 = r) := by
  refine ⟨params_snd r an, ?_, ?_⟩
  · intro h
    rw [params_snd, h]
  · rintro ⟨hs, ha⟩
    rw [params_snd]
    cases ht : r.tags with
    | none => rfl
    | some l =>
      have htl : tagList r an = l := by
        unfold tagList
        rw [hs, ha, ht]
        rfl
      rw [htl]
      cases r with
      | node c is =>
        have hct : c.tags = some l := ht
        show Rec.node { c with tags := some l } is = Rec.node c is
        rw [← hct]

/-- C5 witness: a record without a `tags` key is returned unchanged. -/
theorem C5_witness : (_get_omnifocus_parameters shipTodo none).2 = shipTodo :=
  (C5_mutation shipTodo none).2.1 rfl

/-- C3: a todo rendered with a non-empty owning-area name receives the tag
`area-<name with spaces hyphenated>` (no lower-casing); every tag of a todo
rendered without an area name comes from its own tags or its start status;
and `write_project` passes no area name (`none`) when writing its todos. -/
theorem C3_area_tag_asymmetry (t : Rec) (an : String) (h : an ≠ "") :
    ("area-" ++ replaceSpaces an) ∈ dedupSort (tagList t (some an))
      ∧ (∀ x ∈ dedupSort (tagList t none), x ∈ t.tags.getD [] ∨ t.start = some x)
      ∧ (∀ (p : Rec) (d : String),
          write_project p d
            = d ++ p.title ++ ":" ++ (_get_omnifocus_parameters p p.area_title).1 ++ "\n"
              ++ _write_note_if_any (_get_omnifocus_parameters p p.area_title).2 (d ++ "\t")
              ++ (write_todos (get_all_todos_for_project_in_order p) (d ++ "\t") none).1)
      ∧ dedupSort (tagList (Rec.node {} []) (some "Home Projects"))
          = ["area-Home-Projects"] := by
  refine ⟨?_, ?_, ?_, by decide⟩
  · rw [mem_dedupSort, mem_tagList]
    right
    right
    exact ⟨an, by simp [truthy, h], rfl⟩
  · intro x hx
    rcases mem_tagList.mp (mem_dedupSort.mp hx) with h1 | h1 | ⟨an0, han0, _⟩
    · exact Or.inl h1
    · exact Or.inr (truthy_eq h1)
    · exact absurd han0 (by simp [truthy])
  · intro p d
    rw [write_project_shape, get_all_congr _ p (params_snd_items p p.area_title)]

/-- C3 witness: under area name "Home Projects" the synthesized tag is
`area-Home-Projects`, and each tag of `anytimeTodo` rendered without an area
name comes from its own tags or status. -/
theorem C3_witness :
    ("area-" ++ replaceSpaces "Home Projects")
        ∈ dedupSort (tagList anytimeTodo (some "Home Projects"))
      ∧ ("a" ∈ anytimeTodo.tags.getD [] ∨ anytimeTodo.start = some "a") :=
  ⟨(C3_area_tag_asymmetry anytimeTodo "Home Projects" (by decide)).1,
   (C3_area_tag_asymmetry anytimeTodo "Home Projects" (by decide)).2.1 "a" (by decide)⟩

/-- C2: rendering an area's contents emits exactly its child projects
(filtered to `area` = the area's uuid, ascending by `index`) via the project
rule, followed by its top-level todos (same filter and sort) via the todo
rule — and no line for the area itself: over newline-free record fields and
an area title not starting with a tab, no output line equals the area's
title followed by a colon. -/
theorem C2_area_rendering (a : Rec) (d : String) :
    (write_all_items_in_area a d
        = write_projects (get_all_projects_for_area a) d
          ++ (write_todos (get_all_todos_for_area a) d (some a.title)).1)
      ∧ (get_all_projects_for_area a
          = sortByIndex (a.items.filter
              (fun p => p.type == some "project" && p.area == some a.uuid)))
      ∧ (get_all_todos_for_area a
          = sortByIndex (a.items.filter
              (fun t => t.type == some "to-do" && t.area == some a.uuid)))
      ∧ (CleanArea a → a.title.data.head? ≠ some '\t' →
          (a.title ++ ":").data ∉ splitNL (write_all_items_in_area a "").data) := by
  refine ⟨rfl, rfl, rfl, ?_⟩
  intro hA ht hmem
  rw [area_unlines] at hmem
  have hclean : ∀ l ∈ areaLines a "", CleanStr l :=
    fun l hl => (areaLines_safe hA l hl).1
  rw [splitNL_unlines _ hclean] at hmem
  rcases List.mem_append.mp hmem with h1 | h1
  · obtain ⟨line, hline, hdata⟩ := List.mem_map.mp h1
    rcases (areaLines_safe hA line hline).2 with hh | hh
    · rw [hdata] at hh
      rw [String.data_append] at hh
      cases hnil : a.title.data with
      | nil =>
        rw [hnil] at hh
        exact absurd hh (by decide)
      | cons c cs =>
        rw [List.head?_append_of_ne_nil _ (by rw [hnil]; simp)] at hh
        exact ht hh
    · rw [hdata, String.data_append] at hh
      have : (":" : String).data = [':'] := rfl
      rw [this, List.getLast?_concat] at hh
      exact absurd hh (by decide)
  · have : (a.title ++ ":").data = [] := by
      simpa using h1
    rw [String.data_append] at this
    exact absurd this (by simp)

/-- C2 witness: the scenario area "Work" satisfies the cleanliness
hypotheses, and its rendering contains no `Work:` line. -/
theorem C2_witness :
    (workArea.title ++ ":").data ∉ splitNL (write_all_items_in_area workArea "").data :=
  (C2_area_rendering workArea "").2.2.2 (by decide) (by decide)

theorem tagList_eq (r : Rec) (an : Option String) :
    tagList r an
      = r.tags.getD []
        ++ (match truthy r.start with | some s => [s] | none => [])
        ++ (match truthy an with | some a0 => ["area-" ++ replaceSpaces a0] | none => []) := by
  unfold tagList
  cases truthy r.start <;> cases truthy an <;> simp

theorem mem_tagList_withTags (t : Rec) (an : Option String) (x : String) :
    x ∈ tagList (t.withTags (some (tagList t an))) an ↔ x ∈ tagList t an := by
  rw [tagList_eq (t.withTags (some (tagList t an))) an,
    Rec.withTags_tags, Rec.withTags_start, Option.getD_some, tagList_eq t an]
  simp only [List.mem_append]
  tauto

theorem deferToken_withTags (t : Rec) (x : Option (List String)) :
    deferToken (t.withTags x) = deferToken t := by
  unfold deferToken
  rw [Rec.withTags_start_date]

theorem dueToken_withTags (t : Rec) (x : Option (List String)) :
    dueToken (t.withTags x) = dueToken t := by
  unfold dueToken
  rw [Rec.withTags_deadline]

theorem tagsToken_withTags (t : Rec) (an : Option String) :
    tagsToken (t.withTags (some (tagList t an))) an = tagsToken t an := by
  unfold tagsToken
  rw [dedupSort_congr (mem_tagList_withTags t an)]

theorem params_fst_withTags (t : Rec) (an : Option String) :
    (_get_omnifocus_parameters (t.withTags (some (tagList t an))) an).1
      = (_get_omnifocus_parameters t an).1 := by
  rw [params_fst, params_fst, deferToken_withTags, dueToken_withTags, tagsToken_withTags]

theorem write_todo_idem (t : Rec) (d : String) (an : Option String) :
    (write_todo (write_todo t d an).2 d an).1 = (write_todo t d an).1 := by
  rw [write_todo_snd, params_snd]
  cases ht : t.tags with
  | none => rfl
  | some l =>
    rw [write_todo_shape, write_todo_shape, Rec.withTags_title, params_fst_withTags,
      note_congr _ t ((params_snd_notes (t.withTags (some (tagList t an))) an).trans
        (Rec.withTags_notes t _)),
      note_congr _ t (params_snd_notes t an),
      checklist_congr _ t ((params_snd_checklist (t.withTags (some (tagList t an))) an).trans
        (Rec.withTags_checklist t _)),
      checklist_congr _ t (params_snd_checklist t an)]

/-- C8: serializing the same fixed collection of already-resolved todos
twice with identical inputs yields byte-identical output — the first pass
may extend each record's in-memory tag list, but deduplication makes the
second pass's rendered text equal. -/
theorem C8_idempotent_serialization (ts : List Rec) (d : String) (an : Option String) :
    (write_todos (write_todos ts d an).2 d an).1 = (write_todos ts d an).1
      ∧ ∀ t : Rec, (write_todo (write_todo t d an).2 d an).1 = (write_todo t d an).1 := by
  constructor
  · induction ts with
    | nil => rfl
    | cons t ts ih =>
      have h1 : (write_todos (t :: ts) d an).2
          = (write_todo t d an).2 :: (write_todos ts d an).2 := rfl
      have h2 : (write_todos ((write_todo t d an).2 :: (write_todos ts d an).2) d an).1
          = (write_todo (write_todo t d an).2 d an).1
            ++ (write_todos (write_todos ts d an).2 d an).1 := rfl
      have h3 : (write_todos (t :: ts) d an).1
          = (write_todo t d an).1 ++ (write_todos ts d an).1 := rfl
      rw [h1, h2, h3, write_todo_idem, ih]
  · exact fun t => write_todo_idem t d an

theorem exportSelective_cons (db : DB) (u : String) (rest : List String) :
    exportSelective db (u :: rest)
      = (selChunk db u ++ (exportSelective db rest).1,
         selWarns db u ++ (exportSelective db rest).2) := by
  unfold selChunk selWarns
  cases h : uuid_to_item db u with
  | error e =>
    simp [exportSelective, h, nil_strApp]
  | ok item =>
    cases hty : item.type with
    | none =>
      simp [exportSelective, h, hty, nil_strApp]
    | some s =>
      by_cases h1 : s = "to-do"
      · subst h1
        simp [exportSelective, h, hty, nil_strApp]
      · by_cases h2 : s = "project"
        · subst h2
          simp [exportSelective, h, hty, nil_strApp]
        · by_cases h3 : s = "area"
          · subst h3
            simp [exportSelective, h, hty, nil_strApp]
          · simp [exportSelective, h, hty, h1, h2, h3, nil_strApp]

theorem exportSelective_eq (db : DB) (us : List String) :
    exportSelective db us
      = (strConcat (us.map (selChunk db)), joinL (us.map (selWarns db))) := by
  induction us with
  | nil => rfl
  | cons u rest ih =>
    rw [exportSelective_cons, ih]
    rfl

/-- C6: selective export processes identifiers in order; an identifier that
fails to resolve, or resolves to an unrecognized kind, contributes exactly
one warning naming it on the diagnostic channel (never to the document) and
processing continues; resolvable todos contribute their rendering; the
`[valid1, missing, valid2]` scenario yields both renderings and exactly one
warning referencing `missing`. -/
theorem C6_selective_partial_failure (db : DB) (us : List String) :
    exportSelective db us
        = (strConcat (us.map (selChunk db)), joinL (us.map (selWarns db)))
      ∧ (∀ u, (∃ e, uuid_to_item db u = Except.error e) →
          selWarns db u = [warnNotFound u] ∧ selChunk db u = "")
      ∧ (∀ u item, uuid_to_item db u = Except.ok item →
          item.type ≠ some "to-do" → item.type ≠ some "project" →
          item.type ≠ some "area" →
          selWarns db u = [warnNotItem u] ∧ selChunk db u = "")
      ∧ (∀ u item, uuid_to_item db u = Except.ok item → item.type = some "to-do" →
          selWarns db u = [] ∧ selChunk db u = (write_todo item).1)
      ∧ exportSelective selDB ["valid1", "missing", "valid2"]
          = ((write_todo firstTodo).1 ++ (write_todo secondTodo).1,
             [warnNotFound "missing"]) := by
  refine ⟨exportSelective_eq db us, ?_, ?_, ?_, rfl⟩
  · rintro u ⟨e, he⟩
    constructor <;> simp [selWarns, selChunk, he]
  · intro u item hok hty1 hty2 hty3
    cases hty : item.type with
    | none => constructor <;> simp [selWarns, selChunk, hok, hty]
    | some s =>
      rw [hty] at hty1 hty2 hty3
      simp only [ne_eq, Option.some.injEq] at hty1 hty2 hty3
      constructor <;> simp [selWarns, selChunk, hok, hty, hty1, hty2, hty3]
  · intro u item hok hty
    constructor <;> simp [selWarns, selChunk, hok, hty]

/-- C6 witness: in the concrete databases, the `missing` identifier warns
by name and contributes nothing, an item of unrecognized kind warns by name,
and a resolvable todo renders without warnings. -/
theorem C6_witness :
    (selWarns selDB "missing" = [warnNotFound "missing"] ∧ selChunk selDB "missing" = "")
      ∧ (selWarns oddDB "odd1" = [warnNotItem "odd1"] ∧ selChunk oddDB "odd1" = "")
      ∧ (selWarns selDB "valid1" = [] ∧ selChunk selDB "valid1" = (write_todo firstTodo).1) :=
  ⟨(C6_selective_partial_failure selDB []).2.1 "missing" ⟨⟨"missing", none⟩, rfl⟩,
   (C6_selective_partial_failure oddDB []).2.2.1 "odd1" oddItem rfl
     (by decide) (by decide) (by decide),
   (C6_selective_partial_failure selDB []).2.2.2.1 "valid1" firstTodo rfl rfl⟩

theorem uuid_to_item_eq_spec (db : DB) (u : String) (ty : Option String) :
    uuid_to_item db u ty = spec_resolve db u ty := by
  by_cases ha : ty = some "area"
  · cases harea : db.areas u with
    | error e => simp [uuid_to_item, spec_resolve, ha, harea]
    | ok o =>
      cases o with
      | none => simp [uuid_to_item, spec_resolve, ha, harea]
      | some a => simp [uuid_to_item, spec_resolve, ha, harea]
  · cases htask : db.tasks u ty with
    | error e => simp [uuid_to_item, spec_resolve, ha, htask]
    | ok o =>
      cases o with
      | some r => simp [uuid_to_item, spec_resolve, ha, htask]
      | none =>
        cases harea : db.areas u with
        | error e2 => simp [uuid_to_item, spec_resolve, ha, htask, harea]
        | ok o2 =>
          cases o2 with
          | none => simp [uuid_to_item, spec_resolve, ha, htask, harea]
          | some a => simp [uuid_to_item, spec_resolve, ha, htask, harea]

theorem spec_resolve_error_payload (db : DB) (u : String) (ty : Option String)
    (e : UUIDDoesNotResolveError) (h : spec_resolve db u ty = Except.error e) :
    e = ⟨u, ty⟩ := by
  unfold spec_resolve at h
  by_cases ha : ty = some "area"
  · rw [if_pos ha] at h
    cases harea : db.areas u with
    | error e2 =>
      rw [harea] at h
      exact (Except.error.inj h).symm
    | ok o =>
      cases o with
      | none =>
        rw [harea] at h
        exact (Except.error.inj h).symm
      | some a =>
        rw [harea] at h
        exact absurd h (by simp)
  · rw [if_neg ha] at h
    cases htask : db.tasks u ty with
    | error e2 =>
      rw [htask] at h
      exact (Except.error.inj h).symm
    | ok o =>
      cases o with
      | some r =>
        rw [htask] at h
        exact absurd h (by simp)
      | none =>
        rw [htask] at h
        cases harea : db.areas u with
        | error e2 =>
          rw [harea] at h
          exact (Except.error.inj h).symm
        | ok o2 =>
          cases o2 with
          | none =>
            rw [harea] at h
            exact (Except.error.inj h).symm
          | some a =>
            rw [harea] at h
            exact absurd h (by simp)

theorem accessor_error_iff (ts as : List Rec) (u : String) (ty : Option String) :
    (∃ e, uuid_to_item (accessorDB ts as) u ty = Except.error e)
      ↔ ((ty = some "area"
            ∨ ts.find? (fun r => r.uuid == u && (ty.isNone || r.type == ty)) = none)
         ∧ as.find? (fun r => r.uuid == u) = none) := by
  simp only [uuid_to_item_eq_spec]
  unfold spec_resolve accessorDB
  by_cases ha : ty = some "area"
  · rw [if_pos ha]
    cases hg : as.find? (fun r => r.uuid == u) with
    | none => simp [hg, ha]
    | some a => simp [hg, ha]
  · rw [if_neg ha]
    cases hf : ts.find? (fun r => r.uuid == u && (ty.isNone || r.type == ty)) with
    | some r => simp [hf, ha]
    | none =>
      cases hg : as.find? (fun r => r.uuid == u) with
      | none => simp [hf, hg]
      | some a => simp [hf, hg]

/-- C7: the resolver behaves exactly as §4.1 words it (`spec_resolve`):
kind `area` goes straight to the area store, an empty typed task query falls
back to the area store before failing; over the ground-truth accessor it
raises exactly when no task of the requested kind and no area carry the
identifier; and the raised error carries the identifier and the requested
kind. -/
theorem C7_resolver_contract (db : DB) (u : String) (ty : Option String) :
    uuid_to_item db u ty = spec_resolve db u ty
      ∧ (∀ ts as,
          (∃ e, uuid_to_item (accessorDB ts as) u ty = Except.error e)
            ↔ ((ty = some "area"
                  ∨ ts.find? (fun r => r.uuid == u && (ty.isNone || r.type == ty)) = none)
               ∧ as.find? (fun r => r.uuid == u) = none))
      ∧ (∀ e, uuid_to_item db u ty = Except.error e → e = ⟨u, ty⟩) := by
  refine ⟨uuid_to_item_eq_spec db u ty, fun ts as => accessor_error_iff ts as u ty, ?_⟩
  intro e he
  rw [uuid_to_item_eq_spec] at he
  exact spec_resolve_error_payload db u ty e he

/-- C7 witness: the unresolvable identifier `zzz` errors with itself and the
absent kind as payload. -/
theorem C7_witness :
    (⟨"zzz", none⟩ : UUIDDoesNotResolveError) = ⟨"zzz", none⟩ :=
  (C7_resolver_contract selDB "zzz" none).2.2 ⟨"zzz", none⟩ rfl

end ThingsExport
